import Mathlib

/-!
Verification of the GDPR face-redaction pipeline
(`LESI_Projeto_RGPD_Face_Detection`).

Shallow embedding of the per-file processing pipeline and its helpers:

* strings are modelled as `List Char` (a faithful model of Python `str`);
* bytes are modelled as `List Nat`;
* external capabilities (the AEAD cipher, the KDF, the hash used to
  shorten file names, the pixel-blur kernel, the detection models,
  the image codec) are parameters of the embedded functions;
* filesystem effects are modelled as explicit state on the four
  directories (input, output, backup, error) that the code touches.

Each definition is translated from the Python source file named in its
doc comment.
-/

/-! ## Decimal rendering and parsing of integers

`str(int)` and `int(str)` as used by the region-codec
(`src/image_processing/detector.py` renders with an f-string,
`src/image_processing/face_blur.py` parses with `int`).
Only the non-negative decimal forms produced by the encoder are
relevant to the claims; `digitsToNat?` models `int()` on those.
-/

/-- The decimal digit character for `d < 10` (`'9'` padding otherwise). -/
def digitChar (d : Nat) : Char :=
  if d = 0 then '0' else if d = 1 then '1' else if d = 2 then '2'
  else if d = 3 then '3' else if d = 4 then '4' else if d = 5 then '5'
  else if d = 6 then '6' else if d = 7 then '7' else if d = 8 then '8' else '9'

/-- Decimal rendering of a natural number, as Python `str` renders an `int`. -/
def natToDigits (n : Nat) : List Char :=
  if h : n < 10 then [digitChar n]
  else natToDigits (n / 10) ++ [digitChar (n % 10)]
termination_by n
decreasing_by exact Nat.div_lt_self (by omega) (by omega)

/-- Value of a decimal digit character, `none` on a non-digit. -/
def digitVal? (c : Char) : Option Nat :=
  if '0' ≤ c ∧ c ≤ '9' then some (c.toNat - 48) else none

/-- Left fold accumulating a decimal value, failing on a non-digit. -/
def digitsFold : Option Nat → List Char → Option Nat
  | acc, [] => acc
  | acc, c :: cs => digitsFold (acc.bind fun a => (digitVal? c).map fun d => 10 * a + d) cs

/-- Python `int(s)` on the strings produced by the encoder: a non-empty
all-digits string parses to its decimal value. -/
def digitsToNat? (s : List Char) : Option Nat :=
  if s = [] then none else digitsFold (some 0) s

theorem digitVal?_digitChar (d : Nat) (h : d < 10) : digitVal? (digitChar d) = some d := by
  interval_cases d <;> rfl

theorem digitChar_bounds (d : Nat) : '0' ≤ digitChar d ∧ digitChar d ≤ '9' := by
  unfold digitChar
  split
  · decide
  split
  · decide
  split
  · decide
  split
  · decide
  split
  · decide
  split
  · decide
  split
  · decide
  split
  · decide
  split
  · decide
  · decide

theorem digitsFold_append (acc : Option Nat) (xs ys : List Char) :
    digitsFold acc (xs ++ ys) = digitsFold (digitsFold acc xs) ys := by
  induction xs generalizing acc with
  | nil => rfl
  | cons c cs ih => simp [digitsFold, ih]

theorem digitsFold_natToDigits (n : Nat) :
    ∀ a : Nat, digitsFold (some a) (natToDigits n) = some (a * 10 ^ (natToDigits n).length + n) := by
  induction n using Nat.strong_induction_on with
  | _ n ih =>
    intro a
    by_cases h : n < 10
    · rw [natToDigits]
      simp only [h, dite_true]
      simp [digitsFold, digitVal?_digitChar n h, Nat.mul_comm]
    · rw [natToDigits]
      simp only [h, dite_false]
      rw [digitsFold_append]
      have hlt : n / 10 < n := Nat.div_lt_self (by omega) (by omega)
      rw [ih (n / 10) hlt a]
      have hm : n % 10 < 10 := Nat.mod_lt _ (by omega)
      simp only [digitsFold, digitVal?_digitChar _ hm]
      simp only [Option.map_some', Option.some_bind, List.length_append, List.length_cons,
        List.length_nil]
      congr 1
      rw [pow_succ]
      have hdm : 10 * (n / 10) + n % 10 = n := Nat.div_add_mod n 10
      ring_nf
      omega

theorem natToDigits_ne_nil (n : Nat) : natToDigits n ≠ [] := by
  rw [natToDigits]
  split
  · simp
  · simp

theorem digitsToNat?_natToDigits (n : Nat) : digitsToNat? (natToDigits n) = some n := by
  unfold digitsToNat?
  rw [if_neg (natToDigits_ne_nil n)]
  have := digitsFold_natToDigits n 0
  simpa using this

theorem natToDigits_all_digits (n : Nat) :
    ∀ c ∈ natToDigits n, '0' ≤ c ∧ c ≤ '9' := by
  induction n using Nat.strong_induction_on with
  | _ n ih =>
    intro c hc
    by_cases h : n < 10
    · rw [natToDigits] at hc
      simp only [h, dite_true, List.mem_singleton] at hc
      subst hc; exact digitChar_bounds n
    · rw [natToDigits] at hc
      simp only [h, dite_false, List.mem_append, List.mem_singleton] at hc
      rcases hc with hc | hc
      · exact ih (n / 10) (Nat.div_lt_self (by omega) (by omega)) c hc
      · subst hc; exact digitChar_bounds _

/-! ## Python string split and join

`"sep".join(tokens)` and `s.split("sep")` as used by the region codec:
the encoder joins with `"; "` and `","` glue, the decoder splits on
`"; "` and on `","` (`detector.py:save_faces_exif`,
`face_blur.py:_get_faces_from_exif`).
-/

/-- Python `sep.join(tokens)`. -/
def pyjoin (sep : List Char) : List (List Char) → List Char
  | [] => []
  | [t] => t
  | t :: ts => t ++ sep ++ pyjoin sep ts

/-- Python `s.split(sep)` for a one-character separator. -/
def splitChar (sep : Char) : List Char → List (List Char)
  | [] => [[]]
  | c :: cs =>
    if c = sep then [] :: splitChar sep cs
    else
      match splitChar sep cs with
      | [] => [[c]]
      | t :: ts => (c :: t) :: ts

/-- Python `s.split(sep)` for a two-character separator `⟨a, b⟩`
(the codec separator is `"; "`). -/
def split2 (a b : Char) : List Char → List (List Char)
  | [] => [[]]
  | [c] => [[c]]
  | c :: d :: rest =>
    if c = a ∧ d = b then [] :: split2 a b rest
    else
      match split2 a b (d :: rest) with
      | [] => [[c]]
      | t :: ts => (c :: t) :: ts
termination_by l => l.length
decreasing_by all_goals simp_arith

theorem splitChar_ne_nil (sep : Char) (s : List Char) : splitChar sep s ≠ [] := by
  induction s with
  | nil => simp [splitChar]
  | cons c cs ih =>
    rw [splitChar]
    split
    · simp
    · match h : splitChar sep cs with
      | [] => simp
      | t :: ts => simp

theorem splitChar_sep_cons (sep : Char) (t rest : List Char) (h : sep ∉ t) :
    splitChar sep (t ++ sep :: rest) = t :: splitChar sep rest := by
  induction t with
  | nil => simp [splitChar]
  | cons c t' ih =>
    have hc : c ≠ sep := by
      intro he; exact h (by simp [he])
    have ht' : sep ∉ t' := fun hm => h (by simp [hm])
    rw [List.cons_append, splitChar]
    rw [if_neg hc]
    rw [ih ht']

theorem splitChar_no_sep (sep : Char) (t : List Char) (h : sep ∉ t) :
    splitChar sep t = [t] := by
  induction t with
  | nil => rfl
  | cons c t' ih =>
    have hc : c ≠ sep := by
      intro he; exact h (by simp [he])
    have ht' : sep ∉ t' := fun hm => h (by simp [hm])
    rw [splitChar, if_neg hc, ih ht']

theorem split2_sep_cons (a b : Char) (t rest : List Char) (h : a ∉ t) :
    split2 a b (t ++ a :: b :: rest) = t :: split2 a b rest := by
  induction t with
  | nil => rw [List.nil_append, split2, if_pos ⟨rfl, rfl⟩]
  | cons c t' ih =>
    have hc : c ≠ a := by
      intro he; exact h (by simp [he])
    have ht' : a ∉ t' := fun hm => h (by simp [hm])
    cases t' with
    | nil =>
      rw [List.cons_append, List.nil_append, split2]
      rw [if_neg (by intro hh; exact hc hh.1)]
      rw [split2, if_pos ⟨rfl, rfl⟩]
    | cons e t'' =>
      have step : (c :: (e :: t'') ++ a :: b :: rest) =
          c :: (e :: (t'' ++ a :: b :: rest)) := by simp
      rw [step, split2]
      rw [if_neg (by intro hh; exact hc hh.1)]
      have ihh := ih ht'
      rw [List.cons_append] at ihh
      rw [ihh]

theorem split2_no_sep (a b : Char) (t : List Char) (h : a ∉ t) :
    split2 a b t = [t] := by
  induction t with
  | nil => rw [split2]
  | cons c t' ih =>
    have hc : c ≠ a := by
      intro he; exact h (by simp [he])
    have ht' : a ∉ t' := fun hm => h (by simp [hm])
    cases t' with
    | nil => rw [split2]
    | cons e t'' =>
      rw [split2]
      rw [if_neg (by intro hh; exact hc hh.1)]
      rw [ih ht']

/-! ## RegionCodec

`Region` is the `(x, y, w, h)` integer pixel rectangle of the data model;
detection confidence is dropped by the encoder and is not part of the type.
Encoder: `save_faces_exif` in `src/image_processing/detector.py`
(`"; ".join(f"{x},{y},{w},{h}" ...)`).
Decoder: `_get_faces_from_exif` in `src/image_processing/face_blur.py`
(split on `"; "`, skip empty tokens, `map(int, face_str.split(","))`,
any exception makes the whole decode return `[]`).
-/

structure Region where
  x : Nat
  y : Nat
  w : Nat
  h : Nat
deriving DecidableEq, Repr

/-- One region rendered as `"x,y,w,h"` (`f"{x},{y},{w},{h}"`). -/
def renderRegion (r : Region) : List Char :=
  natToDigits r.x ++ ',' :: natToDigits r.y ++ ',' :: natToDigits r.w ++ ',' :: natToDigits r.h

/-- Carrier string of `save_faces_exif`: carrier string: regions joined with `"; "`. -/
def encodeRegions (rs : List Region) : List Char :=
  pyjoin [';', ' '] (rs.map renderRegion)

/-- One token parsed back, mirroring `x, y, w, h = map(int, face_str.split(","))`:
exactly four comma-separated non-negative integers, else failure. -/
def parseRegion? (tok : List Char) : Option Region :=
  match splitChar ',' tok with
  | [sx, sy, sw, sh] =>
    match digitsToNat? sx, digitsToNat? sy, digitsToNat? sw, digitsToNat? sh with
    | some x, some y, some w, some h => some ⟨x, y, w, h⟩
    | _, _, _, _ => none
  | _ => none

/-- The decode loop body: parse every token, abort on the first failure
(a Python exception aborts the whole loop). -/
def parseAll : List (List Char) → Option (List Region)
  | [] => some []
  | t :: ts =>
    match parseRegion? t, parseAll ts with
    | some r, some rs => some (r :: rs)
    | _, _ => none

/-- Decoder `_get_faces_from_exif` on a carrier string: split on `"; "`, skip
falsy (empty) tokens, parse each; `none` models the exception path. -/
def decodeRegionsE (s : List Char) : Option (List Region) :=
  parseAll (((split2 ';' ' ' s).filter fun t => !t.isEmpty))

/-- Full decode: the enclosing `try/except` returns `[]` on any failure. -/
def decodeRegions (s : List Char) : List Region :=
  (decodeRegionsE s).getD []

theorem comma_not_mem_natToDigits (n : Nat) : ',' ∉ natToDigits n := by
  intro hm
  have := natToDigits_all_digits n ',' hm
  revert this; decide

theorem semi_not_mem_natToDigits (n : Nat) : ';' ∉ natToDigits n := by
  intro hm
  have := natToDigits_all_digits n ';' hm
  revert this; decide

theorem semi_not_mem_renderRegion (r : Region) : ';' ∉ renderRegion r := by
  unfold renderRegion
  intro hm
  simp only [List.mem_append, List.mem_cons] at hm
  rcases hm with ((h | h | h) | h | h) | h | h
  · exact semi_not_mem_natToDigits r.x h
  · exact absurd h (by decide)
  · exact semi_not_mem_natToDigits r.y h
  · exact absurd h (by decide)
  · exact semi_not_mem_natToDigits r.w h
  · exact absurd h (by decide)
  · exact semi_not_mem_natToDigits r.h h

theorem renderRegion_ne_nil (r : Region) : renderRegion r ≠ [] := by
  unfold renderRegion
  intro hm
  exact natToDigits_ne_nil r.x (List.append_eq_nil.mp
    (List.append_eq_nil.mp (List.append_eq_nil.mp hm).1).1).1

theorem parseRegion?_renderRegion (r : Region) : parseRegion? (renderRegion r) = some r := by
  unfold parseRegion? renderRegion
  simp only [List.append_assoc, List.cons_append]
  have h1 := splitChar_sep_cons ',' (natToDigits r.x)
    (natToDigits r.y ++ ',' :: (natToDigits r.w ++ ',' :: natToDigits r.h))
    (comma_not_mem_natToDigits r.x)
  have h2 := splitChar_sep_cons ','  (natToDigits r.y)
    (natToDigits r.w ++ ',' :: natToDigits r.h) (comma_not_mem_natToDigits r.y)
  have h3 := splitChar_sep_cons ',' (natToDigits r.w) (natToDigits r.h)
    (comma_not_mem_natToDigits r.w)
  have h4 := splitChar_no_sep ',' (natToDigits r.h) (comma_not_mem_natToDigits r.h)
  rw [h1, h2, h3, h4]
  simp [digitsToNat?_natToDigits]

theorem decodeRegionsE_encodeRegions (rs : List Region) :
    decodeRegionsE (encodeRegions rs) = some rs := by
  induction rs with
  | nil =>
    unfold decodeRegionsE encodeRegions
    simp only [List.map_nil, pyjoin]
    rw [show split2 ';' ' ' [] = [[]] by rw [split2]]
    simp [parseAll]
  | cons r rs' ih =>
    cases rs' with
    | nil =>
      unfold decodeRegionsE encodeRegions
      simp only [List.map_cons, List.map_nil, pyjoin]
      rw [split2_no_sep ';' ' ' (renderRegion r) (semi_not_mem_renderRegion r)]
      simp only [List.filter_cons, List.filter_nil]
      rw [if_pos (by simp [renderRegion_ne_nil r])]
      simp [parseAll, parseRegion?_renderRegion r]
    | cons r2 rs'' =>
      unfold decodeRegionsE encodeRegions
      simp only [List.map_cons, pyjoin]
      simp only [List.append_assoc, List.cons_append, List.nil_append]
      rw [split2_sep_cons ';' ' ' _ _ (semi_not_mem_renderRegion r)]
      simp only [List.filter_cons]
      rw [if_pos (by simp [renderRegion_ne_nil r])]
      have ih' : parseAll (List.filter (fun t => !t.isEmpty)
            (split2 ';' ' ' (pyjoin [';', ' '] (renderRegion r2 :: List.map renderRegion rs'')))) =
          some (r2 :: rs'') := by
        unfold decodeRegionsE encodeRegions at ih
        simpa using ih
      simp only [parseAll, parseRegion?_renderRegion r]
      rw [ih']

/-- Claim C6. For every RegionSet with non-negative integer fields (the
`Region` type), decoding the carrier string produced by encoding it
yields the set itself, including the empty set (empty carrier string). -/
theorem regionCodec_decode_encode (rs : List Region) :
    decodeRegions (encodeRegions rs) = rs ∧ encodeRegions ([] : List Region) = [] := by
  constructor
  · unfold decodeRegions
    rw [decodeRegionsE_encodeRegions rs]
    rfl
  · rfl

/-! ## Path name utilities

`pathlib.PurePath.suffix` / `.stem` / `.with_suffix` on a file *name*
(the final path component), as used by `rename_with_timestamp.py`,
`convert_image.py` and the per-stage extension gates.
`pathSuffix` follows pathlib: the part from the last `'.'` whose index
`i` satisfies `0 < i < len - 1`; otherwise the empty suffix.
-/

/-- Index of the last `'.'` in a name, if any. -/
def rfindDotIdx : List Char → Option Nat
  | [] => none
  | c :: cs =>
    match rfindDotIdx cs with
    | some i => some (i + 1)
    | none => if c = '.' then some 0 else none

/-- pathlib `PurePath.suffix` of a name. -/
def pathSuffix (cs : List Char) : List Char :=
  match rfindDotIdx cs with
  | none => []
  | some i => if 0 < i ∧ i + 1 < cs.length then cs.drop i else []

/-- pathlib `PurePath.stem` of a name. -/
def pathStem (cs : List Char) : List Char :=
  cs.take (cs.length - (pathSuffix cs).length)

/-- pathlib `PurePath.with_suffix` of a name. -/
def withSuffix (cs newExt : List Char) : List Char :=
  pathStem cs ++ newExt

/-- The lower-cased extension, `img.suffix.lower()` in the source. -/
def extOf (cs : List Char) : List Char :=
  (pathSuffix cs).map Char.toLower

theorem rfindDotIdx_eq_none (cs : List Char) (h : '.' ∉ cs) : rfindDotIdx cs = none := by
  induction cs with
  | nil => rfl
  | cons c cs' ih =>
    have hc : c ≠ '.' := by
      intro he; exact h (by simp [he])
    have h' : '.' ∉ cs' := fun hm => h (by simp [hm])
    rw [rfindDotIdx, ih h']
    simp [fun he => hc he]

theorem rfindDotIdx_append_dot (xs es : List Char) (h : '.' ∉ es) :
    rfindDotIdx (xs ++ '.' :: es) = some xs.length := by
  induction xs with
  | nil =>
    rw [List.nil_append, rfindDotIdx, rfindDotIdx_eq_none es h]
    simp
  | cons c xs' ih =>
    rw [List.cons_append, rfindDotIdx, ih]
    simp


theorem not_mem_of_rfindDotIdx_none (cs : List Char) (h : rfindDotIdx cs = none) :
    '.' ∉ cs := by
  induction cs with
  | nil => simp
  | cons c cs' ih =>
    rw [rfindDotIdx] at h
    cases hr : rfindDotIdx cs' with
    | some j => simp [hr] at h
    | none =>
      simp only [hr] at h
      by_cases hc : c = '.'
      · simp [hc] at h
      · intro hm
        rcases List.mem_cons.mp hm with h1 | h1
        · exact hc h1.symm
        · exact ih hr h1

theorem rfindDotIdx_cons_some (c : Char) (cs : List Char) (j : Nat)
    (h : rfindDotIdx cs = some j) : rfindDotIdx (c :: cs) = some (j + 1) := by
  rw [rfindDotIdx, h]

theorem rfindDotIdx_cons_none (c : Char) (cs : List Char) (h : rfindDotIdx cs = none) :
    rfindDotIdx (c :: cs) = if c = '.' then some 0 else none := by
  rw [rfindDotIdx, h]

theorem rfindDotIdx_no_dot_after (cs : List Char) (i : Nat) (h : rfindDotIdx cs = some i) :
    '.' ∉ cs.drop (i + 1) := by
  induction cs generalizing i with
  | nil => simp [rfindDotIdx] at h
  | cons c cs' ih =>
    cases hr : rfindDotIdx cs' with
    | some j =>
      rw [rfindDotIdx_cons_some c cs' j hr] at h
      have hij : j + 1 = i := Option.some.inj h
      subst hij
      simpa using ih j hr
    | none =>
      rw [rfindDotIdx_cons_none c cs' hr] at h
      by_cases hc : c = '.'
      · rw [if_pos hc] at h
        have h0 : (0 : Nat) = i := Option.some.inj h
        subst h0
        simpa using not_mem_of_rfindDotIdx_none cs' hr
      · rw [if_neg hc] at h
        cases h

theorem rfindDotIdx_dot_at (cs : List Char) (i : Nat) (h : rfindDotIdx cs = some i) :
    cs.drop i = '.' :: cs.drop (i + 1) := by
  induction cs generalizing i with
  | nil => simp [rfindDotIdx] at h
  | cons c cs' ih =>
    cases hr : rfindDotIdx cs' with
    | some j =>
      rw [rfindDotIdx_cons_some c cs' j hr] at h
      have hij : j + 1 = i := Option.some.inj h
      subst hij
      simpa using ih j hr
    | none =>
      rw [rfindDotIdx_cons_none c cs' hr] at h
      by_cases hc : c = '.'
      · rw [if_pos hc] at h
        have h0 : (0 : Nat) = i := Option.some.inj h
        subst h0
        simp [hc]
      · rw [if_neg hc] at h
        cases h

theorem rfindDotIdx_lt_length (cs : List Char) (i : Nat) (h : rfindDotIdx cs = some i) :
    i < cs.length := by
  have := rfindDotIdx_dot_at cs i h
  by_contra hge
  rw [List.drop_eq_nil_of_le (by omega)] at this
  cases this

theorem pathSuffix_of_rfind (cs : List Char) (i : Nat) (h : rfindDotIdx cs = some i) :
    pathSuffix cs = if 0 < i ∧ i + 1 < cs.length then cs.drop i else [] := by
  unfold pathSuffix
  rw [h]

theorem pathSuffix_append_dot (xs es : List Char) (hx : xs ≠ []) (he : es ≠ [])
    (h : '.' ∉ es) : pathSuffix (xs ++ '.' :: es) = '.' :: es := by
  rw [pathSuffix_of_rfind _ _ (rfindDotIdx_append_dot xs es h)]
  rw [if_pos]
  · exact List.drop_left xs ('.' :: es)
  · constructor
    · cases xs with
      | nil => exact absurd rfl hx
      | cons a b => simp
    · rw [List.length_append]
      cases es with
      | nil => exact absurd rfl he
      | cons a b => simp

/-- Decomposition of a name with a non-empty pathlib suffix:
`name = pre ++ '.' :: rest` with `pre` non-empty, `rest` non-empty and
dot-free, and the suffix is exactly `'.' :: rest`. -/
theorem pathSuffix_shape (cs : List Char) (h : pathSuffix cs ≠ []) :
    ∃ pre rest, cs = pre ++ '.' :: rest ∧ pre ≠ [] ∧ rest ≠ [] ∧ '.' ∉ rest ∧
      pathSuffix cs = '.' :: rest := by
  cases hr : rfindDotIdx cs with
  | none => exact absurd (by unfold pathSuffix; rw [hr]) h
  | some i =>
    rw [pathSuffix_of_rfind cs i hr] at h ⊢
    by_cases hcond : 0 < i ∧ i + 1 < cs.length
    · rw [if_pos hcond] at h ⊢
      refine ⟨cs.take i, cs.drop (i + 1), ?_, ?_, ?_, ?_, ?_⟩
      · rw [← rfindDotIdx_dot_at cs i hr]
        exact (List.take_append_drop i cs).symm
      · intro hnil
        have hlen := congrArg List.length hnil
        rw [List.length_take] at hlen
        simp only [List.length_nil] at hlen
        omega
      · intro hnil
        have := congrArg List.length hnil
        simp [List.length_drop] at this
        omega
      · exact rfindDotIdx_no_dot_after cs i hr
      · exact rfindDotIdx_dot_at cs i hr
    · rw [if_neg hcond] at h
      exact absurd rfl h

/-- Prepending characters to a name with a non-empty extension does not
change the extension (used for the timestamp rename prefix). -/
theorem extOf_append (pre name : List Char) (h : extOf name ≠ []) :
    extOf (pre ++ name) = extOf name := by
  have hsuf : pathSuffix name ≠ [] := by
    intro hnil
    unfold extOf at h
    rw [hnil] at h
    exact h rfl
  obtain ⟨p, rest, hdec, hp, hrest, hdot, hsufval⟩ := pathSuffix_shape name hsuf
  unfold extOf
  rw [hsufval, hdec, ← List.append_assoc]
  rw [pathSuffix_append_dot (pre ++ p) rest (by simp [hp]) hrest hdot]

/-! ## PathSafeName — `src/input_output/rename_with_timestamp.py`

`_shorten_if_needed(parent, candidate)` keeps the full path
`str(parent / candidate)` within `MAX_FULL_PATH`.  The md5 hex digest and
the `strftime` timestamp are external capabilities, passed as the
`md5hex` and `ts` parameters (the source takes
`hashlib.md5(stem).hexdigest()[:8]` and a fresh 19-character timestamp).
Path join is modelled as `parent ++ '/' :: name`.  The source computes
`MAX_FULL_PATH - len(str(parent)) - 1` in Python integers; the truncated
Nat subtraction used here agrees with it because the value only ever
flows through `max(8 + reserve, ...)`, which discards exactly the cases
where the Python value would be negative.
-/

def MAX_FULL_PATH : Nat := 240

def _shorten_if_needed (md5hex : List Char → List Char) (ts parent candidate : List Char) :
    List Char :=
  if (parent ++ '/' :: candidate).length ≤ MAX_FULL_PATH then candidate
  else
    let stem := pathStem candidate
    let ext := pathSuffix candidate
    let digest := (md5hex stem).take 8
    let reserve := 1 + digest.length + ext.length
    let maxNameLen := max (8 + reserve) (MAX_FULL_PATH - parent.length - 1)
    if maxNameLen ≤ reserve + 10 then
      ts ++ '_' :: digest ++ ext
    else
      let keep := maxNameLen - reserve
      let trimmed := stem.take keep
      let safeName := trimmed ++ '_' :: digest ++ ext
      if MAX_FULL_PATH < (parent ++ '/' :: safeName).length then
        ts ++ '_' :: digest ++ ext
      else safeName

/-- Stand-in for `hashlib.md5(...).hexdigest()`: a fixed 32-hex-character
digest (only its length matters to the claims). -/
def md5hexConst : List Char → List Char :=
  fun _ => "0123456789abcdef0123456789abcdef".toList

/-- A fixed `YYYYMMDD_HHMMSS_mmm` timestamp (19 characters), the shape
produced by `datetime.now().strftime("%Y%m%d_%H%M%S_%f")[:-3]`. -/
def tsConst : List Char := "20250101_120000_000".toList

/-- A 230-character parent directory path. -/
def longParentC9 : List Char := List.replicate 230 'd'

set_option maxRecDepth 40000 in
/-- Claim C9, counterexample. The claim says the shortened name always
yields a full path of at most 240 characters, for every parent path.
With a 230-character parent directory and the candidate
`<ts>_photo.jpg`, the hard fallback `<ts>_<hash>.jpg` is produced and
the full path has 263 > 240 characters. -/
theorem shorten_if_needed_budget_counterexample :
    MAX_FULL_PATH <
      (longParentC9 ++ '/' ::
        _shorten_if_needed md5hexConst tsConst longParentC9
          (tsConst ++ '_' :: "photo.jpg".toList)).length := by decide

/-- Claim C9, amended. Whenever the parent path leaves room for the
minimal shortened name — `parent.length + ext.length ≤ 219` — the name
produced by the shortening logic yields a full path of at most the
240-character budget, for every original name (in particular a
500-character one) and every digest/timestamp capability.  (When the
parent alone is longer, the hard fallback `<ts>_<hash><ext>` is produced
and its full path can exceed the budget, as the counterexample shows.) -/
theorem shorten_if_needed_within_budget
    (md5hex : List Char → List Char) (ts parent candidate : List Char)
    (h : parent.length + (pathSuffix candidate).length ≤ 219) :
    (parent ++ '/' :: _shorten_if_needed md5hex ts parent candidate).length ≤ MAX_FULL_PATH := by
  by_cases h1 : (parent ++ '/' :: candidate).length ≤ MAX_FULL_PATH
  · rw [_shorten_if_needed, if_pos h1]
    exact h1
  · rw [_shorten_if_needed, if_neg h1]
    simp only []
    have hD : ((md5hex (pathStem candidate)).take 8).length ≤ 8 := by
      rw [List.length_take]; omega
    have hE := h
    rw [if_neg]
    · rw [if_neg]
      · simp only [List.length_append, List.length_cons, List.length_take]
        have := List.length_take
          (max (8 + (1 + ((md5hex (pathStem candidate)).take 8).length +
            (pathSuffix candidate).length)) (MAX_FULL_PATH - parent.length - 1) -
            (1 + ((md5hex (pathStem candidate)).take 8).length + (pathSuffix candidate).length))
          (pathStem candidate)
        unfold MAX_FULL_PATH at *
        omega
      · simp only [List.length_append, List.length_cons, List.length_take, not_lt]
        unfold MAX_FULL_PATH at *
        omega
    · unfold MAX_FULL_PATH at *
      omega

set_option maxRecDepth 100000 in
/-- Witness for the C9 amended theorem: a 3-character parent and a
504-character original name stay within the budget. -/
theorem shorten_if_needed_within_budget_witness :
    ("out".toList.length + (pathSuffix (tsConst ++ '_' :: (List.replicate 500 'a' ++ ".jpg".toList))).length ≤ 219) ∧
    ("out".toList ++ '/' ::
      _shorten_if_needed md5hexConst tsConst "out".toList
        (tsConst ++ '_' :: (List.replicate 500 'a' ++ ".jpg".toList))).length ≤ MAX_FULL_PATH :=
  ⟨by decide, shorten_if_needed_within_budget md5hexConst tsConst "out".toList
    (tsConst ++ '_' :: (List.replicate 500 'a' ++ ".jpg".toList)) (by decide)⟩

/-! ## OriginalBackup container format

`encrypt_to_aesgcm` in `src/input_output/encrypt_original.py` writes
`[magic 4B "ENC1"][salt 16B][nonce 12B][ciphertext+tag]`;
`decrypt_file` in `src/tools/decrypt_original.py` reverses it.
Bytes are `List Nat`.  The key derivation (PBKDF2HMAC-SHA256,
200 000 iterations) and the one-shot AES-GCM seal/open are an external
capability, modelled by the `AESGCMCapability` parameter; `decrypt`
returning `none` models the `InvalidTag` exception on authentication
failure.  `decrypt_file` returning `none` models the fail-closed path:
the output file is written only after a successful decrypt.
-/

structure AESGCMCapability where
  derive : List Nat → String → List Nat
  encrypt : List Nat → List Nat → List Nat → List Nat
  decrypt : List Nat → List Nat → List Nat → Option (List Nat)

/-- The 4-byte container magic `b"ENC1"`. -/
def ENC1 : List Nat := [69, 78, 67, 49]

/-- Body of `encrypt_to_aesgcm` for given fresh `salt`/`nonce`
(`secrets.token_bytes(16)` / `secrets.token_bytes(12)`), with the
cipher capability available. -/
def encrypt_to_aesgcm (C : AESGCMCapability) (salt nonce : List Nat) (password : String)
    (data : List Nat) : List Nat :=
  ENC1 ++ salt ++ nonce ++ C.encrypt (C.derive salt password) nonce data

/-- Function `decrypt_file`: check the magic, recover salt/nonce from the fixed
offsets, derive the key with the same KDF, open the ciphertext.
`some data` means the plaintext `data` is written to the output file;
`none` means failure with no output written. -/
def decrypt_file (C : AESGCMCapability) (password : String) (blob : List Nat) :
    Option (List Nat) :=
  if blob.take 4 ≠ ENC1 then none
  else
    let salt := (blob.drop 4).take 16
    let nonce := (blob.drop 20).take 12
    let ct := blob.drop 32
    C.decrypt (C.derive salt password) nonce ct

theorem encrypt_container_parses (C : AESGCMCapability) (salt nonce : List Nat)
    (password : String) (data : List Nat) (hs : salt.length = 16) (hn : nonce.length = 12) :
    let blob := encrypt_to_aesgcm C salt nonce password data
    blob.take 4 = ENC1 ∧ (blob.drop 4).take 16 = salt ∧ (blob.drop 20).take 12 = nonce ∧
      blob.drop 32 = C.encrypt (C.derive salt password) nonce data := by
  intro blob
  have h4 : blob.drop 4 = salt ++ (nonce ++ C.encrypt (C.derive salt password) nonce data) := by
    unfold blob
    unfold encrypt_to_aesgcm
    rw [List.append_assoc, List.append_assoc]
    exact List.drop_left' rfl
  have h20 : blob.drop 20 = nonce ++ C.encrypt (C.derive salt password) nonce data := by
    have : blob.drop 20 = (blob.drop 4).drop 16 := by
      rw [List.drop_drop]
    rw [this, h4]
    exact List.drop_left' hs
  have h32 : blob.drop 32 = C.encrypt (C.derive salt password) nonce data := by
    have : blob.drop 32 = (blob.drop 20).drop 12 := by
      rw [List.drop_drop]
    rw [this, h20]
    exact List.drop_left' hn
  refine ⟨?_, ?_, ?_, h32⟩
  · unfold blob
    unfold encrypt_to_aesgcm
    rw [List.append_assoc, List.append_assoc]
    exact List.take_left' rfl
  · rw [h4]
    exact List.take_left' hs
  · rw [h20]
    exact List.take_left' hn

/-- Claim C4. Decrypting the container produced by the backup encryption
with the same password reproduces the original bytes exactly, for every
plaintext, password, fresh 16-byte salt and fresh 12-byte nonce; the
AEAD seal/open and the KDF are abstract capabilities satisfying
"open after seal with the same key and nonce is the identity". -/
theorem decrypt_file_encrypt_roundtrip (C : AESGCMCapability) (password : String)
    (salt nonce data : List Nat) (hs : salt.length = 16) (hn : nonce.length = 12)
    (hopen : ∀ k n d, C.decrypt k n (C.encrypt k n d) = some d) :
    decrypt_file C password (encrypt_to_aesgcm C salt nonce password data) = some data := by
  obtain ⟨h1, h2, h3, h4⟩ := encrypt_container_parses C salt nonce password data hs hn
  unfold decrypt_file
  rw [h1]
  rw [if_neg (by simp)]
  simp only [h2, h3, h4]
  exact hopen _ _ _

/-- Claim C5. Decryption fails closed: a container whose first four bytes
are not the `ENC1` magic yields failure with no output written, and
decrypting a well-formed container with a different password than the
one used to encrypt yields failure with no output written (the KDF maps
the two passwords to different keys and AEAD authentication rejects a
wrong key). -/
theorem decrypt_file_fails_closed (C : AESGCMCapability) (pwEnc pwDec : String)
    (salt nonce data : List Nat) (hs : salt.length = 16) (hn : nonce.length = 12)
    (hauth : ∀ k k' n d, k ≠ k' → C.decrypt k' n (C.encrypt k n d) = none)
    (hkdf : C.derive salt pwEnc ≠ C.derive salt pwDec) :
    (∀ blob, blob.take 4 ≠ ENC1 → decrypt_file C pwDec blob = none) ∧
      decrypt_file C pwDec (encrypt_to_aesgcm C salt nonce pwEnc data) = none := by
  constructor
  · intro blob hb
    unfold decrypt_file
    rw [if_pos hb]
  · obtain ⟨h1, h2, h3, h4⟩ := encrypt_container_parses C salt nonce pwEnc data hs hn
    unfold decrypt_file
    rw [h1]
    rw [if_neg (by simp)]
    simp only [h2, h3, h4]
    exact hauth _ _ _ _ fun he => hkdf he

/-- A concrete cipher used to witness the C4/C5 theorems: the key is the
password bytes, sealing tags the ciphertext with the key, opening checks
the key and rejects any other. -/
def keyedCipher : AESGCMCapability where
  derive := fun _ p => p.toList.map Char.toNat
  encrypt := fun k _ d => k.length :: (k ++ d)
  decrypt := fun k _ c =>
    match c with
    | [] => none
    | len :: rest =>
      if len = k.length ∧ rest.take k.length = k then some (rest.drop k.length) else none

theorem keyedCipher_open_seal (k n d : List Nat) :
    keyedCipher.decrypt k n (keyedCipher.encrypt k n d) = some d := by
  unfold keyedCipher
  simp [List.take_left, List.drop_left]

theorem keyedCipher_open_wrong_key (k k' n d : List Nat) (h : k ≠ k') :
    keyedCipher.decrypt k' n (keyedCipher.encrypt k n d) = none := by
  unfold keyedCipher
  simp only []
  rw [if_neg]
  intro hcontra
  obtain ⟨hl, ht⟩ := hcontra
  rw [← hl, List.take_left] at ht
  exact h ht

/-- Witness for C4 at password `"p"`, plaintext `[1, 2, 3]`. -/
theorem decrypt_file_encrypt_roundtrip_witness :
    decrypt_file keyedCipher "p"
      (encrypt_to_aesgcm keyedCipher (List.replicate 16 0) (List.replicate 12 0) "p" [1, 2, 3]) =
      some [1, 2, 3] :=
  decrypt_file_encrypt_roundtrip keyedCipher "p" (List.replicate 16 0) (List.replicate 12 0)
    [1, 2, 3] (by decide) (by decide) keyedCipher_open_seal

/-- Witness for C5: the malformed container `[0, 1, 2]` and a wrong
password (`"q"` against `"p"`) both fail with no output. -/
theorem decrypt_file_fails_closed_witness :
    decrypt_file keyedCipher "q" [0, 1, 2] = none ∧
      decrypt_file keyedCipher "q"
        (encrypt_to_aesgcm keyedCipher (List.replicate 16 0) (List.replicate 12 0) "p" [1, 2, 3]) =
        none :=
  ⟨(decrypt_file_fails_closed keyedCipher "p" "q" (List.replicate 16 0) (List.replicate 12 0)
      [1, 2, 3] (by decide) (by decide) keyedCipher_open_wrong_key (by decide)).1
      [0, 1, 2] (by decide),
    (decrypt_file_fails_closed keyedCipher "p" "q" (List.replicate 16 0) (List.replicate 12 0)
      [1, 2, 3] (by decide) (by decide) keyedCipher_open_wrong_key (by decide)).2⟩

/-! ## Filesystem state and the per-file pipeline

`process_image` in `src/app/image_processing_pipeline.py` and the stage
helpers it calls.  File names are `List Char`; the filesystem is the
explicit content of the four locations the code touches: the input
directory, the output directory, the backup folder
(`image_output/encrypted_originals`) and the error directory.
`PipeEnv` carries the outcomes of every external effect (the codec, the
cipher, the detectors, the filesystem operations), so one run of the
embedded pipeline is a pure function of the environment.
-/

structure FsState where
  input : List (List Char)
  output : List (List Char)
  backup : List (List Char)
  error : List (List Char)
deriving DecidableEq, Repr

structure PipeEnv where
  /-- Value of `str(IMAGE_INPUT)`, the parent path used by `_shorten_if_needed`. -/
  inputDir : List Char
  /-- the fresh `strftime` timestamp used by `_generate_timestamp_name`. -/
  ts : List Char
  /-- Capability `hashlib.md5(...).hexdigest()`. -/
  md5hex : List Char → List Char
  /-- Flag: `path.rename` raises no exception. -/
  renameOk : Bool
  /-- Result of `get_hardcoded_password()` (the source hardcodes `"password"`). -/
  password : Option String
  /-- the `cryptography` package imports. -/
  cipherAvailable : Bool
  /-- the AEAD encryption and container write succeed. -/
  encryptOk : Bool
  /-- Flag: `shutil.copy2` succeeds (plain-copy mode). -/
  copyOk : Bool
  /-- PIL decode/re-encode of a BMP/GIF succeeds. -/
  convertOk : Bool
  /-- Flag: `piexif.remove` / metadata re-save succeeds. -/
  stripOk : Bool
  /-- Flag: `cv2.imread` returns a pixel buffer (not `None`). -/
  imreadOk : Bool
  /-- face model outcome: `none` models the model call raising,
  `some l` the detected boxes (confidences abstracted away). -/
  modelFaces : Option (List Region)
  /-- Flag: `setup_model("license_plate")` succeeds. -/
  plateSetupOk : Bool
  /-- plate boxes returned by `detect_license_plates_on_image`
  (that function swallows inference errors and returns `[]`). -/
  plates : List Region
  /-- the cv2 blur/imwrite operations succeed. -/
  blurWriteOk : Bool
  /-- Flag: `img.replace(destination)` into the output directory succeeds. -/
  finalizeOk : Bool
  /-- the fallback `img.replace(err_dest)` succeeds. -/
  finalizeErrOk : Bool
  /-- Flag: `shutil.move` into the error directory succeeds. -/
  moveToErrorOk : Bool
  /-- the last-resort `img.unlink` succeeds. -/
  unlinkOk : Bool

/-- Extensions accepted by the face detector and the blur stage
(`detector_face.py`, `face_blur.py`). -/
def DETECT_EXTS : List (List Char) :=
  [".jpg".toList, ".jpeg".toList, ".png".toList, ".bmp".toList]

/-- Extensions converted to JPEG (`convert_image.py`). -/
def CONVERT_EXTS : List (List Char) := [".bmp".toList, ".gif".toList]

/-- Extensions handled by the metadata scrubber (`strip_metadata.py`). -/
def STRIP_EXTS : List (List Char) :=
  [".jpg".toList, ".jpeg".toList, ".png".toList, ".bmp".toList,
   ".tif".toList, ".tiff".toList, ".webp".toList]

/-- Watcher allow-list extensions outside the detector's supported set
(`list_images.py` minus `detector_face.py`, minus the converted
BMP/GIF). -/
def TIF_LIKE_EXTS : List (List Char) :=
  [".tif".toList, ".tiff".toList, ".webp".toList, ".heic".toList]

/-- Stage `move_to_error` (`src/input_output/move_to_error.py`): move the file
to the error directory as `original_<name>`; if the move fails, delete
the source after logging (documented last-resort data loss); if even the
delete fails the file stays. -/
def move_to_error (env : PipeEnv) (name : List Char) (s : FsState) : FsState :=
  if env.moveToErrorOk then
    { s with input := s.input.filter (fun m => m ≠ name),
             error := ("original_".toList ++ name) :: s.error }
  else if env.unlinkOk then
    { s with input := s.input.filter (fun m => m ≠ name) }
  else s

/-- Helper `_generate_timestamp_name`: `f"{ts}_{base}"`. -/
def candidate_name (env : PipeEnv) (name : List Char) : List Char :=
  env.ts ++ '_' :: name

/-- The in-place renamed name, after `_shorten_if_needed`. -/
def renamed_name (env : PipeEnv) (name : List Char) : List Char :=
  _shorten_if_needed env.md5hex env.ts env.inputDir (candidate_name env name)

/-- Stage `rename_with_timestamp`: rename in place inside the input directory;
on any exception return `None` (the file stays in input, unrenamed). -/
def rename_with_timestamp (env : PipeEnv) (name : List Char) (s : FsState) :
    Option (List Char × FsState) :=
  if env.renameOk then
    some (renamed_name env name,
      { s with input := renamed_name env name :: s.input.filter (fun m => m ≠ name) })
  else none

/-- Stage `copy_original_to_output` (`src/input_output/copy_original.py`):
with a password, encrypt to `original_<name>.enc` in the backup folder
(any failure, including a missing cipher, raises and quarantines);
without a password, plain-copy to `original_<name>`. -/
def copy_original_to_output (env : PipeEnv) (name : List Char) (s : FsState) :
    FsState × Bool :=
  match env.password with
  | some _ =>
    if env.cipherAvailable && env.encryptOk then
      ({ s with backup := ("original_".toList ++ name ++ ".enc".toList) :: s.backup }, true)
    else
      (move_to_error env name s, false)
  | none =>
    if env.copyOk then
      ({ s with backup := ("original_".toList ++ name) :: s.backup }, true)
    else
      (move_to_error env name s, false)

/-- Helper `ensure_processable_image` (`src/image_processing/convert_image.py`):
write a converted copy at `<stem>.jpg` unless it already exists; the
original file is left in place.  On codec failure the `except` branch
returns the original path (and performs no cleanup). -/
def ensure_processable_image (env : PipeEnv) (name : List Char) (s : FsState) :
    List Char × FsState :=
  let conv := withSuffix name ".jpg".toList
  if conv ∈ s.input then (conv, s)
  else if env.convertOk then (conv, { s with input := conv :: s.input })
  else (name, s)

/-- Stage `convert`: BMP/GIF go through `ensure_processable_image`, everything
else is returned unchanged.  The `except` branch of the source
(returning `(False, None)` and quarantining) is unreachable because
`ensure_processable_image` catches every exception, so the embedded
function always reports `(true, some path)`. -/
def convert (env : PipeEnv) (name : List Char) (s : FsState) :
    FsState × Bool × Option (List Char) :=
  if extOf name ∈ CONVERT_EXTS then
    let r := ensure_processable_image env name s
    (r.2, true, some r.1)
  else (s, true, some name)

/-- Stage `strip_all_metadata` (`src/image_processing/strip_metadata.py`):
unsupported formats are skipped with success; a failure on a supported
format quarantines the file. -/
def strip_all_metadata (env : PipeEnv) (name : List Char) (s : FsState) :
    FsState × Bool :=
  if extOf name ∉ STRIP_EXTS then (s, true)
  else if env.stripOk then (s, true)
  else (move_to_error env name s, false)

/-- Detector `detector_face` (`src/image_processing/detector_face.py`): an
unsupported extension or an unreadable file yields an *empty list*, not
an error; only an exception out of the model call escapes (`none`). -/
def detector_face (env : PipeEnv) (name : List Char) : Option (List Region) :=
  if extOf name ∉ DETECT_EXTS then some []
  else if !env.imreadOk then some []
  else
    match env.modelFaces with
    | none => none
    | some l => some l

/-- Stage `detect_faces`: wrapper that quarantines on an escaped exception. -/
def detect_faces (env : PipeEnv) (name : List Char) (s : FsState) :
    FsState × Option (List Region) :=
  match detector_face env name with
  | some l => (s, some l)
  | none => (move_to_error env name s, none)

/-- A Python box tuple flowing into `_apply_blur`: the face detector
emits 5-tuples `(x, y, w, h, conf)`, the plate detector 4-tuples
`(x, y, w, h)`; the conf payload is abstracted to a `Nat`. -/
inductive PyBox where
  | b4 (x y w h : Nat)
  | b5 (x y w h conf : Nat)
deriving DecidableEq, Repr

def PyBox.isB5 : PyBox → Bool
  | .b4 _ _ _ _ => false
  | .b5 _ _ _ _ _ => true

/-- Redactor `face_blur` (`src/image_processing/face_blur.py`): extension gate,
empty-list gate, then `_apply_blur`; unpacking a 5-tuple in
`for (x, y, w, h) in faces` raises `ValueError`, which the enclosing
`try` turns into `False` (no quarantine). -/
def face_blur (env : PipeEnv) (name : List Char) (boxes : List PyBox) : Bool :=
  if extOf name ∉ DETECT_EXTS then false
  else if boxes.isEmpty then false
  else if !env.imreadOk then false
  else if boxes.any PyBox.isB5 then false
  else env.blurWriteOk

/-- Wrapper `blur_faces`: `face_blur` never raises, so the wrapper's
quarantining `except` branch is unreachable. -/
def blur_faces (env : PipeEnv) (name : List Char) (boxes : List PyBox) : Bool :=
  face_blur env name boxes

/-- Stage `move_anon_image_to_output` (`src/input_output/finalize_output.py`):
move to output; on failure, redirect to the error directory (under the
unprefixed name); if even that fails the file stays in input. -/
def move_anon_image_to_output (env : PipeEnv) (name : List Char) (s : FsState) :
    FsState × Bool :=
  if env.finalizeOk then
    ({ s with input := s.input.filter (fun m => m ≠ name), output := name :: s.output }, true)
  else if env.finalizeErrOk then
    ({ s with input := s.input.filter (fun m => m ≠ name), error := name :: s.error }, false)
  else (s, false)

inductive Stage where
  | renameS | backupS | convertS | stripS | faceS | plateS | blurS | finalizeS
deriving DecidableEq, Repr

/-- Result of one orchestrator run: final filesystem state, the boolean
returned by `process_image`, and the stages that were attempted. -/
structure RunResult where
  fs : FsState
  ok : Bool
  stages : List Stage
deriving DecidableEq, Repr

/-- Orchestrator `process_image` (`src/app/image_processing_pipeline.py`): the
per-file orchestrator.  Mirrors the source's early-return structure;
step 6 (plate model setup) returns `False` without quarantining, and a
`False` from `blur_faces` likewise leaves the file where it is. -/
def process_image (env : PipeEnv) (name : List Char) (s0 : FsState) : RunResult :=
  match rename_with_timestamp env name s0 with
  | none => ⟨s0, false, [Stage.renameS]⟩
  | some (n1, s1) =>
    let r2 := copy_original_to_output env n1 s1
    if !r2.2 then ⟨r2.1, false, [Stage.renameS, Stage.backupS]⟩
    else
      let r3 := convert env n1 r2.1
      if !r3.2.1 then ⟨r3.1, false, [Stage.renameS, Stage.backupS, Stage.convertS]⟩
      else
        match r3.2.2 with
        | none => ⟨r3.1, false, [Stage.renameS, Stage.backupS, Stage.convertS]⟩
        | some n3 =>
          let r4 := strip_all_metadata env n3 r3.1
          if !r4.2 then
            ⟨r4.1, false, [Stage.renameS, Stage.backupS, Stage.convertS, Stage.stripS]⟩
          else
            let r5 := detect_faces env n3 r4.1
            match r5.2 with
            | none =>
              ⟨r5.1, false,
                [Stage.renameS, Stage.backupS, Stage.convertS, Stage.stripS, Stage.faceS]⟩
            | some faces =>
              if !env.plateSetupOk then
                ⟨r5.1, false,
                  [Stage.renameS, Stage.backupS, Stage.convertS, Stage.stripS, Stage.faceS,
                    Stage.plateS]⟩
              else
                let combined := faces.map (fun r => PyBox.b5 r.x r.y r.w r.h 0) ++
                  env.plates.map (fun r => PyBox.b4 r.x r.y r.w r.h)
                if !combined.isEmpty then
                  if !blur_faces env n3 combined then
                    ⟨r5.1, false,
                      [Stage.renameS, Stage.backupS, Stage.convertS, Stage.stripS,
                        Stage.faceS, Stage.plateS, Stage.blurS]⟩
                  else
                    let r8 := move_anon_image_to_output env n3 r5.1
                    ⟨r8.1, r8.2,
                      [Stage.renameS, Stage.backupS, Stage.convertS, Stage.stripS,
                        Stage.faceS, Stage.plateS, Stage.blurS, Stage.finalizeS]⟩
                else
                  let r8 := move_anon_image_to_output env n3 r5.1
                  ⟨r8.1, r8.2,
                    [Stage.renameS, Stage.backupS, Stage.convertS, Stage.stripS,
                      Stage.faceS, Stage.plateS, Stage.finalizeS]⟩

/-! ## Concrete runs -/

/-- An environment in which every external effect succeeds: the fixed
timestamp/digest capabilities, the hardcoded password, a working cipher
and codec, a face model that reports no boxes, no plates. -/
def happyEnv : PipeEnv where
  inputDir := "in".toList
  ts := tsConst
  md5hex := md5hexConst
  renameOk := true
  password := some "password"
  cipherAvailable := true
  encryptOk := true
  copyOk := true
  convertOk := true
  stripOk := true
  imreadOk := true
  modelFaces := some []
  plateSetupOk := true
  plates := []
  blurWriteOk := true
  finalizeOk := true
  finalizeErrOk := true
  moveToErrorOk := true
  unlinkOk := true

set_option maxRecDepth 40000 in
/-- Claim C1. A fully successful run on `photo.bmp`: the converted
`<ts>_photo.jpg` is finalized to the output directory, but the renamed
original `<ts>_photo.bmp` is still in the input directory at
completion — `ensure_processable_image` writes a converted copy and
nothing ever removes the BMP original, so the file does not reside in
exactly one of {output, error} and remains in input (where the next
watcher cycle re-processes it). -/
theorem pipeline_bmp_original_remains_in_input :
    (process_image happyEnv "photo.bmp".toList ⟨["photo.bmp".toList], [], [], []⟩).ok = true ∧
    "20250101_120000_000_photo.jpg".toList ∈
      (process_image happyEnv "photo.bmp".toList ⟨["photo.bmp".toList], [], [], []⟩).fs.output ∧
    "20250101_120000_000_photo.bmp".toList ∈
      (process_image happyEnv "photo.bmp".toList ⟨["photo.bmp".toList], [], [], []⟩).fs.input := by
  decide

/-- Environment `happyEnv` with a face model call that raises. -/
def detectFailEnv : PipeEnv := { happyEnv with modelFaces := none }

set_option maxRecDepth 40000 in
/-- Claim C7, counterexample. A `photo.jpg` whose face-detection stage
fails (the model call raises): the file does end in the error directory
and nothing is finalized to output, but the encrypted backup
`original_<ts>_photo.jpg.enc` — written before detection — remains in
the backup location, contradicting the claim that no corresponding file
exists there. -/
theorem pipeline_detector_failure_backup_remains :
    (process_image detectFailEnv "photo.jpg".toList ⟨["photo.jpg".toList], [], [], []⟩).ok
        = false ∧
    (process_image detectFailEnv "photo.jpg".toList ⟨["photo.jpg".toList], [], [], []⟩).fs.error
        = ["original_20250101_120000_000_photo.jpg".toList] ∧
    (process_image detectFailEnv "photo.jpg".toList ⟨["photo.jpg".toList], [], [], []⟩).fs.output
        = [] ∧
    "original_20250101_120000_000_photo.jpg.enc".toList ∈
      (process_image detectFailEnv "photo.jpg".toList ⟨["photo.jpg".toList], [], [], []⟩).fs.backup
    := by decide

/-- Environment `happyEnv` with one license-plate box reported. -/
def tifPlateEnv : PipeEnv := { happyEnv with plates := [⟨0, 0, 5, 5⟩] }

set_option maxRecDepth 40000 in
/-- Claim C2, counterexample. A `photo.tif` on which the plate detector
(which has no extension gate — the model is handed the path) reports one
box: the blur stage rejects the `.tif` extension and returns `False`, so
the run fails and the file is *not* finalized to the output directory —
it stays in input — contradicting the claim that every such file is
finalized to output. -/
theorem pipeline_tif_with_plate_not_finalized :
    (process_image tifPlateEnv "photo.tif".toList ⟨["photo.tif".toList], [], [], []⟩).ok
        = false ∧
    (process_image tifPlateEnv "photo.tif".toList ⟨["photo.tif".toList], [], [], []⟩).fs.output
        = [] ∧
    "20250101_120000_000_photo.tif".toList ∈
      (process_image tifPlateEnv "photo.tif".toList ⟨["photo.tif".toList], [], [], []⟩).fs.input ∧
    Stage.blurS ∈
      (process_image tifPlateEnv "photo.tif".toList ⟨["photo.tif".toList], [], [], []⟩).stages
    := by decide

/-- Environment `happyEnv` with a failing BMP/GIF codec. -/
def convertFailEnv : PipeEnv := { happyEnv with convertOk := false }

set_option maxRecDepth 40000 in
/-- Claim C8, counterexample. A `photo.bmp` whose decode/re-encode fails:
`convert` reports success with the *original* path (the `except` branch
of `ensure_processable_image` swallows the error), and the pipeline
continues — the face stage runs and the unconverted `.bmp` is even
finalized to output — contradicting the claim that the conversion stage
reports failure and the pipeline does not continue with that file. -/
theorem pipeline_convert_failure_continues :
    (convert convertFailEnv "20250101_120000_000_photo.bmp".toList
        ⟨["20250101_120000_000_photo.bmp".toList], [], [], []⟩)
      = (⟨["20250101_120000_000_photo.bmp".toList], [], [], []⟩, true,
          some "20250101_120000_000_photo.bmp".toList) ∧
    Stage.faceS ∈
      (process_image convertFailEnv "photo.bmp".toList ⟨["photo.bmp".toList], [], [], []⟩).stages ∧
    (process_image convertFailEnv "photo.bmp".toList ⟨["photo.bmp".toList], [], [], []⟩).ok
        = true ∧
    "20250101_120000_000_photo.bmp".toList ∈
      (process_image convertFailEnv "photo.bmp".toList ⟨["photo.bmp".toList], [], [], []⟩).fs.output
    := by decide

/-! ## General pipeline theorems -/

theorem renamed_name_of_fits (env : PipeEnv) (name : List Char)
    (h : (env.inputDir ++ '/' :: candidate_name env name).length ≤ MAX_FULL_PATH) :
    renamed_name env name = candidate_name env name := by
  unfold renamed_name _shorten_if_needed
  rw [if_pos h]

theorem extOf_candidate (env : PipeEnv) (name : List Char) (h : extOf name ≠ []) :
    extOf (candidate_name env name) = extOf name := by
  unfold candidate_name
  rw [show env.ts ++ '_' :: name = (env.ts ++ ['_']) ++ name by simp]
  exact extOf_append (env.ts ++ ['_']) name h

theorem strip_all_metadata_ok (env : PipeEnv) (name : List Char) (s : FsState)
    (h : env.stripOk = true) : strip_all_metadata env name s = (s, true) := by
  unfold strip_all_metadata
  simp [h]

/-- Claim C3. Whenever a password is configured and the cipher capability
is unavailable or the encryption fails, `copy_original_to_output` raises
and the backup stage reports failure: the run returns `False`, exactly
the rename and backup stages were attempted (the pipeline never reaches
redaction), the file is quarantined as `original_<renamed>`, no file of
any kind is added to the backup location (in particular no unencrypted
copy) and the output directory is untouched. -/
theorem backup_encryption_failure_quarantines (env : PipeEnv) (pw : String)
    (name : List Char) (s0 : FsState) (hpw : env.password = some pw)
    (hfail : env.cipherAvailable = false ∨ env.encryptOk = false)
    (hrn : env.renameOk = true) (hmv : env.moveToErrorOk = true) :
    (process_image env name s0).ok = false ∧
    (process_image env name s0).stages = [Stage.renameS, Stage.backupS] ∧
    ("original_".toList ++ renamed_name env name) ∈ (process_image env name s0).fs.error ∧
    renamed_name env name ∉ (process_image env name s0).fs.input ∧
    (process_image env name s0).fs.backup = s0.backup ∧
    (process_image env name s0).fs.output = s0.output := by
  have hcc : (env.cipherAvailable && env.encryptOk) = false := by
    rcases hfail with h | h <;> simp [h]
  simp only [process_image, rename_with_timestamp, copy_original_to_output, move_to_error,
    hpw, hrn, hmv, hcc, if_true, Bool.false_eq_true, if_false, Bool.not_false, Bool.not_true]
  simp [List.mem_filter]

/-- Environment `happyEnv` with the cipher capability unavailable. -/
def cipherlessEnv : PipeEnv := { happyEnv with cipherAvailable := false }

set_option maxRecDepth 40000 in
/-- Witness for C3 on `photo.jpg` with the `cryptography` import
failing. -/
theorem backup_encryption_failure_quarantines_witness :
    (process_image cipherlessEnv "photo.jpg".toList ⟨["photo.jpg".toList], [], [], []⟩).ok
        = false ∧
    (process_image cipherlessEnv "photo.jpg".toList ⟨["photo.jpg".toList], [], [], []⟩).stages
        = [Stage.renameS, Stage.backupS] ∧
    ("original_".toList ++ renamed_name cipherlessEnv "photo.jpg".toList) ∈
      (process_image cipherlessEnv "photo.jpg".toList ⟨["photo.jpg".toList], [], [], []⟩).fs.error ∧
    renamed_name cipherlessEnv "photo.jpg".toList ∉
      (process_image cipherlessEnv "photo.jpg".toList ⟨["photo.jpg".toList], [], [], []⟩).fs.input ∧
    (process_image cipherlessEnv "photo.jpg".toList ⟨["photo.jpg".toList], [], [], []⟩).fs.backup
        = [] ∧
    (process_image cipherlessEnv "photo.jpg".toList ⟨["photo.jpg".toList], [], [], []⟩).fs.output
        = [] :=
  backup_encryption_failure_quarantines cipherlessEnv "password" "photo.jpg".toList
    ⟨["photo.jpg".toList], [], [], []⟩ rfl (Or.inl rfl) rfl rfl

/-- Claim C7, amended. For every image whose face-detection stage fails
(the detector's extension gate passes, the read succeeds, and the model
call raises), the file ends in the error directory as
`original_<renamed>` and is gone from input, and nothing is added to
the output directory; however the encrypted backup
`original_<renamed>.enc`, written before detection, remains in the
backup location. -/
theorem detector_failure_quarantines (env : PipeEnv) (pw : String) (name : List Char)
    (s0 : FsState) (hrn : env.renameOk = true) (hpw : env.password = some pw)
    (hca : env.cipherAvailable = true) (henc : env.encryptOk = true)
    (hnc : extOf (renamed_name env name) ∉ CONVERT_EXTS)
    (hst : env.stripOk = true)
    (hd : extOf (renamed_name env name) ∈ DETECT_EXTS)
    (hir : env.imreadOk = true) (hmf : env.modelFaces = none)
    (hmv : env.moveToErrorOk = true) :
    (process_image env name s0).ok = false ∧
    ("original_".toList ++ renamed_name env name) ∈ (process_image env name s0).fs.error ∧
    renamed_name env name ∉ (process_image env name s0).fs.input ∧
    (process_image env name s0).fs.output = s0.output ∧
    ("original_".toList ++ renamed_name env name ++ ".enc".toList) ∈
      (process_image env name s0).fs.backup := by
  simp only [process_image, rename_with_timestamp, copy_original_to_output, convert,
    strip_all_metadata_ok _ _ _ hst, detect_faces, detector_face, move_to_error,
    hpw, hrn, hmv, hca, henc, hnc, hd, hir, hmf]
  simp [hnc, hd, List.mem_filter]

set_option maxRecDepth 40000 in
/-- Witness for the C7 amended theorem on `photo.jpg` with a raising
face model. -/
theorem detector_failure_quarantines_witness :
    (process_image detectFailEnv "photo.jpg".toList ⟨["photo.jpg".toList], [], [], []⟩).ok
        = false ∧
    ("original_".toList ++ renamed_name detectFailEnv "photo.jpg".toList) ∈
      (process_image detectFailEnv "photo.jpg".toList ⟨["photo.jpg".toList], [], [], []⟩).fs.error ∧
    renamed_name detectFailEnv "photo.jpg".toList ∉
      (process_image detectFailEnv "photo.jpg".toList ⟨["photo.jpg".toList], [], [], []⟩).fs.input ∧
    (process_image detectFailEnv "photo.jpg".toList ⟨["photo.jpg".toList], [], [], []⟩).fs.output
        = [] ∧
    ("original_".toList ++ renamed_name detectFailEnv "photo.jpg".toList ++ ".enc".toList) ∈
      (process_image detectFailEnv "photo.jpg".toList ⟨["photo.jpg".toList], [], [], []⟩).fs.backup
    :=
  detector_failure_quarantines detectFailEnv "password" "photo.jpg".toList
    ⟨["photo.jpg".toList], [], [], []⟩ rfl rfl rfl rfl (by decide) rfl (by decide) rfl rfl rfl

/-- Claim C2, amended. For every input file whose extension is in
{.tif, .tiff, .webp, .heic}: the face detector returns an empty region
list through its extension gate — independently of whether the pixel
read succeeds or the model would raise, i.e. without reading the pixel
data — and, *provided the plate detector also returns no regions* (and
backup, metadata strip and finalize succeed), the pipeline treats the
image as having no personal data and finalizes it to the output
directory with no redaction applied (the blur stage is never attempted). -/
theorem tif_like_no_redaction_finalized (env : PipeEnv) (pw : String) (name : List Char)
    (s0 : FsState)
    (hfit : (env.inputDir ++ '/' :: candidate_name env name).length ≤ MAX_FULL_PATH)
    (hext : extOf name ∈ TIF_LIKE_EXTS)
    (hrn : env.renameOk = true) (hpw : env.password = some pw)
    (hca : env.cipherAvailable = true) (henc : env.encryptOk = true)
    (hst : env.stripOk = true) (hps : env.plateSetupOk = true)
    (hpl : env.plates = []) (hfin : env.finalizeOk = true) :
    (detector_face env (renamed_name env name) = some [] ∧
     detector_face { env with imreadOk := false } (renamed_name env name) = some [] ∧
     detector_face { env with modelFaces := none } (renamed_name env name) = some []) ∧
    (process_image env name s0).ok = true ∧
    renamed_name env name ∈ (process_image env name s0).fs.output ∧
    renamed_name env name ∉ (process_image env name s0).fs.input ∧
    Stage.blurS ∉ (process_image env name s0).stages ∧
    (process_image env name s0).fs.error = s0.error := by
  have hcases : extOf name = ".tif".toList ∨ extOf name = ".tiff".toList ∨
      extOf name = ".webp".toList ∨ extOf name = ".heic".toList := by
    simpa [TIF_LIKE_EXTS] using hext
  have hne : extOf name ≠ [] := by
    rcases hcases with h | h | h | h <;> simp [h]
  have hx : extOf (renamed_name env name) = extOf name := by
    rw [renamed_name_of_fits env name hfit]
    exact extOf_candidate env name hne
  have hnd : extOf (renamed_name env name) ∉ DETECT_EXTS := by
    rw [hx]
    rcases hcases with h | h | h | h <;> rw [h] <;> decide
  have hnc : extOf (renamed_name env name) ∉ CONVERT_EXTS := by
    rw [hx]
    rcases hcases with h | h | h | h <;> rw [h] <;> decide
  refine ⟨⟨?_, ?_, ?_⟩, ?_⟩
  · unfold detector_face
    rw [if_pos hnd]
  · unfold detector_face
    rw [if_pos hnd]
  · unfold detector_face
    rw [if_pos hnd]
  · simp only [process_image, rename_with_timestamp, copy_original_to_output, convert,
      strip_all_metadata_ok _ _ _ hst, detect_faces, detector_face,
      move_anon_image_to_output, hpw, hrn, hca, henc, hnc, hnd, hps, hpl, hfin]
    simp [hnc, hnd, List.mem_filter]

set_option maxRecDepth 40000 in
/-- Witness for the C2 amended theorem on `photo.tif` in the fully
successful environment. -/
theorem tif_like_no_redaction_finalized_witness :
    (detector_face happyEnv (renamed_name happyEnv "photo.tif".toList) = some [] ∧
     detector_face { happyEnv with imreadOk := false }
        (renamed_name happyEnv "photo.tif".toList) = some [] ∧
     detector_face { happyEnv with modelFaces := none }
        (renamed_name happyEnv "photo.tif".toList) = some []) ∧
    (process_image happyEnv "photo.tif".toList ⟨["photo.tif".toList], [], [], []⟩).ok = true ∧
    renamed_name happyEnv "photo.tif".toList ∈
      (process_image happyEnv "photo.tif".toList ⟨["photo.tif".toList], [], [], []⟩).fs.output ∧
    renamed_name happyEnv "photo.tif".toList ∉
      (process_image happyEnv "photo.tif".toList ⟨["photo.tif".toList], [], [], []⟩).fs.input ∧
    Stage.blurS ∉
      (process_image happyEnv "photo.tif".toList ⟨["photo.tif".toList], [], [], []⟩).stages ∧
    (process_image happyEnv "photo.tif".toList ⟨["photo.tif".toList], [], [], []⟩).fs.error = []
    :=
  tif_like_no_redaction_finalized happyEnv "password" "photo.tif".toList
    ⟨["photo.tif".toList], [], [], []⟩ (by decide) (by decide) rfl rfl rfl rfl rfl rfl rfl rfl

/-- Claim C8, amended. On a BMP/GIF whose decode/re-encode fails, the
original is untouched and nothing is created at the converted path
(the state is returned unchanged), but the conversion stage does *not*
report failure: `convert` reports success with the original path, and
the pipeline therefore continues with the unconverted file (shown
end-to-end by the C8 counterexample run). -/
theorem convert_failure_reports_success (env : PipeEnv) (name : List Char) (s : FsState)
    (hext : extOf name ∈ CONVERT_EXTS) (hconv : env.convertOk = false)
    (hnc : withSuffix name ".jpg".toList ∉ s.input) :
    convert env name s = (s, true, some name) := by
  unfold convert ensure_processable_image
  rw [if_pos hext]
  have hnc2 : ¬ (withSuffix name ['.', 'j', 'p', 'g'] ∈ s.input) := by
    simpa using hnc
  simp [hnc2, hconv]

set_option maxRecDepth 40000 in
/-- Witness for the C8 amended theorem: a failing codec on
`<ts>_photo.bmp` leaves the state unchanged and reports success with
the original path. -/
theorem convert_failure_reports_success_witness :
    convert convertFailEnv "20250101_120000_000_photo.bmp".toList ⟨[], [], [], []⟩
      = (⟨[], [], [], []⟩, true, some "20250101_120000_000_photo.bmp".toList) :=
  convert_failure_reports_success convertFailEnv "20250101_120000_000_photo.bmp".toList
    ⟨[], [], [], []⟩ (by decide) rfl (by decide)

/-! ## RegionRedactor — `_apply_blur` in `src/image_processing/face_blur.py`

The image is a pixel grid with explicit dimensions.  `_apply_blur` runs
`roi = img[y:y2, x:x2]; blurred = cv2.blur(roi, ...); img[y:y2, x:x2] =
blurred` for each box: numpy slice semantics clamp both slice bounds to
the array extent, which clips a box that extends past an edge.
`cv2.blur` is the external pixel-blur capability `blurK`, taking the
dimensions and pixels of the region of interest and returning a
same-shape pixel function — but it raises `cv2.error` when the source
is empty, i.e. when the clipped rectangle has zero extent (box fully
past an edge, or zero width/height).  That exception aborts the loop
before `cv2.imwrite`, so the file is unchanged and `face_blur` returns
`False`; `none` models this path. -/

structure Image (α : Type) where
  h : Nat
  w : Nat
  pix : Nat → Nat → α

/-- One iteration of the `_apply_blur` loop: clip the box to the image
(numpy slice clamping); on an empty clipped region of interest,
`cv2.blur` raises (`none`); otherwise blur the clipped region and write
it back in place. -/
def blurRegion? {α : Type} (blurK : Nat → Nat → (Nat → Nat → α) → Nat → Nat → α)
    (img : Image α) (r : Region) : Option (Image α) :=
  let y1 := min r.y img.h
  let y2 := min (r.y + r.h) img.h
  let x1 := min r.x img.w
  let x2 := min (r.x + r.w) img.w
  if y2 - y1 = 0 ∨ x2 - x1 = 0 then none
  else
    let roi : Nat → Nat → α := fun i j => img.pix (y1 + i) (x1 + j)
    let blurred := blurK (y2 - y1) (x2 - x1) roi
    some
      { h := img.h, w := img.w,
        pix := fun i j =>
          if y1 ≤ i ∧ i < y2 ∧ x1 ≤ j ∧ j < x2 then blurred (i - y1) (j - x1)
          else img.pix i j }

/-- Loop `_apply_blur`: blur every box of the combined set in order and
then `cv2.imwrite` the buffer back to the file; an exception on any box
aborts before the write (`none`), leaving the file unchanged. -/
def _apply_blur {α : Type} (blurK : Nat → Nat → (Nat → Nat → α) → Nat → Nat → α)
    (img : Image α) : List Region → Option (Image α)
  | [] => some img
  | r :: rs =>
    match blurRegion? blurK img r with
    | none => none
    | some img1 => _apply_blur blurK img1 rs

theorem blurRegion?_dims {α : Type} (blurK : Nat → Nat → (Nat → Nat → α) → Nat → Nat → α)
    (img img' : Image α) (r : Region) (h : blurRegion? blurK img r = some img') :
    img'.h = img.h ∧ img'.w = img.w := by
  unfold blurRegion? at h
  simp only [] at h
  split at h
  · cases h
  · rw [← Option.some.inj h]
    exact ⟨rfl, rfl⟩

theorem apply_blur_some_dims {α : Type}
    (blurK : Nat → Nat → (Nat → Nat → α) → Nat → Nat → α) (faces : List Region) :
    ∀ img out : Image α, _apply_blur blurK img faces = some out →
      out.h = img.h ∧ out.w = img.w := by
  induction faces with
  | nil =>
    intro img out h
    unfold _apply_blur at h
    rw [← Option.some.inj h]
    exact ⟨rfl, rfl⟩
  | cons r rs ih =>
    intro img out h
    unfold _apply_blur at h
    cases hb : blurRegion? blurK img r with
    | none => rw [hb] at h; cases h
    | some img1 =>
      rw [hb] at h
      obtain ⟨h1, w1⟩ := blurRegion?_dims blurK img img1 r hb
      obtain ⟨h2, w2⟩ := ih img1 out h
      exact ⟨h2.trans h1, w2.trans w1⟩

/-- Claim C10, counterexample.  The claim quantifies over *every* region
whose rectangle extends beyond the image bounds and asserts the blur is
applied without raising an error.  The box `(12, 0, 5, 5)` on a 10×10
image satisfies the premise (`12 + 5 > 10`), but its numpy-clipped
slice is empty, `cv2.blur` raises `cv2.error` on the empty source and
the blur stage fails — the region is rejected, not truncated. -/
theorem apply_blur_empty_roi_rejected :
    (10 < 12 + 5) ∧
    blurRegion? (fun _ _ f => f) (Image.mk 10 10 fun _ _ => (0 : Nat)) ⟨12, 0, 5, 5⟩ = none ∧
    _apply_blur (fun _ _ f => f) (Image.mk 10 10 fun _ _ => (0 : Nat)) [⟨12, 0, 5, 5⟩] = none :=
  ⟨by omega, rfl, rfl⟩

/-- Claim C10, amended.  For every image and every region whose
rectangle `(x, y, x+w, y+h)` extends beyond the image bounds *but whose
clipped rectangle is non-empty* (the box still overlaps the image), the
redactor clips the rectangle to the image bounds and applies the blur
without raising an error: pixels outside the clipped rectangle are
unchanged, pixels inside it carry the blur of the clipped region of
interest, and whenever `_apply_blur` succeeds on a region list the
redacted image has the same dimensions as the input.  (When the clipped
rectangle is empty the blur stage fails and the region is rejected, as
the counterexample shows.) -/
theorem apply_blur_clips_overlapping_region {α : Type}
    (blurK : Nat → Nat → (Nat → Nat → α) → Nat → Nat → α)
    (img : Image α) (r : Region)
    (hoob : img.w < r.x + r.w ∨ img.h < r.y + r.h)
    (hx : min r.x img.w < min (r.x + r.w) img.w)
    (hy : min r.y img.h < min (r.y + r.h) img.h) :
    (∃ img' : Image α, blurRegion? blurK img r = some img' ∧
      img'.h = img.h ∧ img'.w = img.w ∧
      (∀ i j, ¬(min r.y img.h ≤ i ∧ i < min (r.y + r.h) img.h ∧
          min r.x img.w ≤ j ∧ j < min (r.x + r.w) img.w) →
        img'.pix i j = img.pix i j) ∧
      (∀ i j, (min r.y img.h ≤ i ∧ i < min (r.y + r.h) img.h ∧
          min r.x img.w ≤ j ∧ j < min (r.x + r.w) img.w) →
        img'.pix i j =
          blurK (min (r.y + r.h) img.h - min r.y img.h)
            (min (r.x + r.w) img.w - min r.x img.w)
            (fun a b => img.pix (min r.y img.h + a) (min r.x img.w + b))
            (i - min r.y img.h) (j - min r.x img.w))) ∧
    (∀ (faces : List Region) (im out : Image α),
      _apply_blur blurK im faces = some out → out.h = im.h ∧ out.w = im.w) := by
  constructor
  · have hcond : ¬(min (r.y + r.h) img.h - min r.y img.h = 0 ∨
        min (r.x + r.w) img.w - min r.x img.w = 0) := by omega
    unfold blurRegion?
    simp only []
    rw [if_neg hcond]
    refine ⟨_, rfl, rfl, rfl, ?_, ?_⟩
    · intro i j hout
      simp only []
      rw [if_neg hout]
    · intro i j hin
      simp only []
      rw [if_pos hin]
  · intro faces im out h
    exact apply_blur_some_dims blurK faces im out h

/-- Witness for the C10 amended theorem: a 10×10 image and the box
`(5, 5, 10, 10)`, which exceeds the right and bottom edges but overlaps
the image. -/
theorem apply_blur_clips_overlapping_region_witness :
    (∃ img' : Image Nat,
      blurRegion? (fun _ _ f => f) (Image.mk 10 10 fun _ _ => (0 : Nat)) ⟨5, 5, 10, 10⟩
          = some img' ∧
      img'.h = 10 ∧ img'.w = 10 ∧
      (∀ i j, ¬(min 5 10 ≤ i ∧ i < min (5 + 10) 10 ∧ min 5 10 ≤ j ∧ j < min (5 + 10) 10) →
        img'.pix i j = (Image.mk 10 10 fun _ _ => (0 : Nat)).pix i j) ∧
      (∀ i j, (min 5 10 ≤ i ∧ i < min (5 + 10) 10 ∧ min 5 10 ≤ j ∧ j < min (5 + 10) 10) →
        img'.pix i j =
          (fun _ _ f => f) (min (5 + 10) 10 - min 5 10) (min (5 + 10) 10 - min 5 10)
            (fun a b => (Image.mk 10 10 fun _ _ => (0 : Nat)).pix (min 5 10 + a) (min 5 10 + b))
            (i - min 5 10) (j - min 5 10))) ∧
    (∀ (faces : List Region) (im out : Image Nat),
      _apply_blur (fun _ _ f => f) im faces = some out → out.h = im.h ∧ out.w = im.w) :=
  apply_blur_clips_overlapping_region (fun _ _ f => f)
    (Image.mk 10 10 fun _ _ => (0 : Nat)) ⟨5, 5, 10, 10⟩ (by decide) (by decide) (by decide)
